import Mathlib

/-!
Shallow embedding of the LRU dict C extension (repository amitdev/lru-dict).

The repository holds two variants of the module:

* `src/lru.c` - the lock + staging-list variant: every public `LRU_*`
  operation performs its dict/list mutation inside a mutex-guarded critical
  section, evicted pairs are appended to `self->staging_list`
  (`lru_delete_last`), and the eviction callback is invoked only by
  `lru_purge_staging` after the lock has been released.
* `src/src/lru/_lru.c` - a variant with neither lock nor staging list:
  there `lru_delete_last` invokes the callback directly, in the middle of
  the mutation.

The C code couples a Python dict (key -> node) with an intrusive doubly
linked list of the same nodes ordered MRU (head, `self->first`) to LRU
(tail, `self->last`); between operations the two structures hold exactly
the same entries, so the state is modelled by a single association list
`entries` in MRU-to-LRU order.  The dict operations `GET_NODE` /
`PUT_NODE key NULL` become lookup / removal of the pair with the given
key.  Callback invocations are recorded in an observation trace `calls`
(one element per `PyObject_CallObject(self->callback, args)`); whether
`self->callback` is non-NULL is the boolean `callback`.  Python
exceptions are the type `PyErr`.  `Py_ssize_t` quantities (`self->size`)
are `Int`.
-/

/-- Python exceptions raised by this module: `KeyError(key)` raised by the
underlying dict on a missing key, `KeyError` with a string message
(`PyErr_SetString(PyExc_KeyError, ...)`), and `ValueError` with a string
message (`PyErr_SetString(PyExc_ValueError, ...)`). -/
inductive PyErr (K : Type) where
  | keyErrorKey (k : K)
  | keyErrorMsg (msg : String)
  | valueError (msg : String)
deriving DecidableEq

/-- Exception-class test: both forms of `KeyError` are the same Python
exception class `KeyError`; `ValueError` is not. -/
def PyErr.isKeyError {K : Type} : PyErr K → Bool
  | .keyErrorKey _ => true
  | .keyErrorMsg _ => true
  | .valueError _ => false

/-- Model of `GET_NODE(self->dict, key)`: Python dict lookup, on the
association list the value of the first pair with the given key (the keys
of a dict are unique, so at most one pair matches). -/
def dictGet {K V : Type} [DecidableEq K] (k : K) : List (K × V) → Option V
  | [] => none
  | (k1, v) :: rest => if k1 = k then some v else dictGet k rest

/-- Model of `PUT_NODE(self->dict, key, NULL)`: Python dict deletion,
removal of the (unique) pair with the given key. -/
def dictDel {K V : Type} [DecidableEq K] (k : K) : List (K × V) → List (K × V)
  | [] => []
  | (k1, v) :: rest => if k1 = k then rest else (k1, v) :: dictDel k rest

/-- State of the `LRU` object of `src/lru.c` (lines 140-153): `entries` is
the recency list head-to-tail (equally, the contents of `self->dict`),
`size` is the capacity field `self->size`, `hits` and `misses` the
counters, `callback` records whether `self->callback` is non-NULL,
`staging` is the contents of `self->staging_list`, and `calls` is the
observation trace of callback invocations. -/
structure LRU (K V : Type) where
  entries : List (K × V)
  size : Int
  hits : Nat
  misses : Nat
  callback : Bool
  staging : List (K × V)
  calls : List (K × V)
deriving DecidableEq

/-- Model of `lru_length` (src/lru.c lines 323-327): `PyDict_Size`. -/
def lru_length {K V : Type} (s : LRU K V) : Nat :=
  s.entries.length

/-- Model of `lru_delete_last` (src/lru.c lines 242-264): if the list is
nonempty, append the tail pair to the staging list when a callback is
configured (`Py_BuildValue` + `PyList_Append`), then unlink the tail node
and delete its key from the dict.  The function never invokes the
callback itself, so the trace `calls` is untouched. -/
def lru_delete_last {K V : Type} [DecidableEq K] (s : LRU K V) : LRU K V :=
  match s.entries.getLast? with
  | none => s
  | some kv =>
    { s with
      entries := s.entries.dropLast
      staging := if s.callback then s.staging ++ [kv] else s.staging }

/-- Model of `lru_purge_staging` (src/lru.c lines 267-320): with no
callback configured the staging list is cleared (`PySequence_DelSlice`);
otherwise the loop `for (i = len - 1; i >= 0; i--)` feeds
`staging_list[i]` to the callback and deletes it, consuming the staged
pairs from the tail: the callback is invoked once per staged pair, in
reverse enqueue order, and the staging list ends empty. -/
def lru_purge_staging {K V : Type} [DecidableEq K] (s : LRU K V) : LRU K V :=
  if s.callback then
    { s with staging := [], calls := s.calls ++ s.staging.reverse }
  else
    { s with staging := [] }

/-- Model of `lru_subscript` (src/lru.c lines 388-409): `GET_NODE`; on a
miss increment `misses` and return NULL (the dict has set `KeyError`);
on a hit, when the node is not already `self->first`, unlink it and
relink it at the head, then increment `hits` and return the value. -/
def lru_subscript {K V : Type} [DecidableEq K] (s : LRU K V) (k : K) :
    Option V × LRU K V :=
  match dictGet k s.entries with
  | none => (none, { s with misses := s.misses + 1 })
  | some v =>
    if s.entries.head?.map Prod.fst = some k then
      (some v, { s with hits := s.hits + 1 })
    else
      (some v, { s with entries := (k, v) :: dictDel k s.entries, hits := s.hits + 1 })

/-- Model of `lru_ass_sub` (src/lru.c lines 455-500).  With a value: if
the key is present, replace the node's value and move the node to the
head; if absent, put the new node into the dict, evict the tail
(`lru_delete_last`) when the dict has grown beyond `self->size`, and link
the new node at the head.  With NULL (deletion): delete the key from the
dict - on a missing key the dict reports failure (-1, `KeyError`) -
and unlink the node.  The returned `Int` is the C result code. -/
def lru_ass_sub {K V : Type} [DecidableEq K] (s : LRU K V) (k : K) (v : Option V) :
    Int × LRU K V :=
  match v, dictGet k s.entries with
  | some v, some _ =>
    (0, { s with entries := (k, v) :: dictDel k s.entries })
  | some v, none =>
    let s1 := if (s.entries.length : Int) + 1 > s.size then lru_delete_last s else s
    (0, { s1 with entries := (k, v) :: s1.entries })
  | none, some _ =>
    (0, { s with entries := dictDel k s.entries })
  | none, none => (-1, s)

/-- Model of `LRU_ass_sub_lock_purge` (src/lru.c lines 503-516): acquire
the lock, run `lru_ass_sub`, release the lock, then purge the staging
list outside the critical section. -/
def LRU_ass_sub_lock_purge {K V : Type} [DecidableEq K] (s : LRU K V) (k : K)
    (v : Option V) : Int × LRU K V :=
  let r := lru_ass_sub s k v
  (r.1, lru_purge_staging r.2)

/-- Model of `LRU_subscript_lock` (src/lru.c lines 412-424): locked
`lru_subscript`; a NULL result surfaces the `KeyError(key)` set by the
dict lookup in `GET_NODE`. -/
def LRU_subscript_lock {K V : Type} [DecidableEq K] (s : LRU K V) (k : K) :
    Except (PyErr K) V × LRU K V :=
  match lru_subscript s k with
  | (some v, s2) => (.ok v, s2)
  | (none, s2) => (.error (.keyErrorKey k), s2)

/-- Model of `LRU_setdefault` (src/lru.c lines 586-620): locked
`lru_subscript`; on a hit return the value (no purge); on a miss insert
the default with `lru_ass_sub`, release the lock, purge, and return the
default when the status is 0 (in this model the insertion of an absent
key always succeeds, so the error branch is unreachable). -/
def LRU_setdefault {K V : Type} [DecidableEq K] (s : LRU K V) (k : K) (d : V) :
    Except (PyErr K) V × LRU K V :=
  match lru_subscript s k with
  | (some v, s2) => (.ok v, s2)
  | (none, s2) =>
    let r := lru_ass_sub s2 k (some d)
    (if r.1 = 0 then .ok d else .error (.keyErrorKey k), lru_purge_staging r.2)

/-- Model of `LRU_pop` (src/lru.c lines 622-654): locked `lru_subscript`;
on a hit delete the key with `lru_ass_sub(self, key, NULL)` and return
the value; on a miss return the default when given, else surface the
`KeyError(key)` already set by the lookup.  `pop` never purges (it never
grows the cache). -/
def LRU_pop {K V : Type} [DecidableEq K] (s : LRU K V) (k : K) (dflt : Option V) :
    Except (PyErr K) V × LRU K V :=
  match lru_subscript s k with
  | (some v, s2) => (.ok v, (lru_ass_sub s2 k none).2)
  | (none, s2) =>
    match dflt with
    | some d => (.ok d, s2)
    | none => (.error (.keyErrorKey k), s2)

/-- Model of `LRU_popitem` (src/lru.c lines 707-743): the node is
`self->last` when `least_recent` else `self->first`; when NULL raise
`KeyError("popitem(): LRU dict is empty")`; otherwise build the
(key, value) tuple, delete the key with `lru_ass_sub(self, key, NULL)`,
and return the tuple. -/
def LRU_popitem {K V : Type} [DecidableEq K] (s : LRU K V) (least_recent : Bool) :
    Except (PyErr K) (K × V) × LRU K V :=
  match (if least_recent then s.entries.getLast? else s.entries.head?) with
  | none => (.error (.keyErrorMsg "popitem(): LRU dict is empty"), s)
  | some kv => (.ok kv, (lru_ass_sub s kv.1 none).2)

/-- Model of `LRU_peek_first_item` (src/lru.c lines 669-686): return the
(key, value) tuple of `self->first` when it exists, else `Py_None`
(modelled as `none`); the state is not touched. -/
def LRU_peek_first_item {K V : Type} [DecidableEq K] (s : LRU K V) :
    Option (K × V) × LRU K V :=
  match s.entries.head? with
  | some kv => (some kv, s)
  | none => (none, s)

/-- Model of `LRU_peek_last_item` (src/lru.c lines 688-705): return the
(key, value) tuple of `self->last` when it exists, else `Py_None`;
the state is not touched. -/
def LRU_peek_last_item {K V : Type} [DecidableEq K] (s : LRU K V) :
    Option (K × V) × LRU K V :=
  match s.entries.getLast? with
  | some kv => (some kv, s)
  | none => (none, s)

/-- Model of the while loop of `LRU_set_size` (src/lru.c lines 824-826):
`while (lru_length(self) > newSize) lru_delete_last(self);`.  The `fuel`
argument bounds the number of iterations; the caller passes the current
length, which suffices because the caller has checked `newSize > 0`, so
each iteration runs on a nonempty list and shrinks it by one. -/
def lru_evict_loop {K V : Type} [DecidableEq K] (newSize : Int) :
    Nat → LRU K V → LRU K V
  | 0, s => s
  | fuel + 1, s =>
    if (s.entries.length : Int) > newSize then
      lru_evict_loop newSize fuel (lru_delete_last s)
    else s

/-- Model of `LRU_set_size` (src/lru.c lines 807-834): a non-positive
`newSize` raises `ValueError("Size should be a positive number")` and the
state is untouched; otherwise, under the lock, evict from the tail while
the length exceeds `newSize`, set `self->size`, release the lock, and
purge when at least one eviction happened. -/
def LRU_set_size {K V : Type} [DecidableEq K] (s : LRU K V) (newSize : Int) :
    Except (PyErr K) Unit × LRU K V :=
  if newSize ≤ 0 then
    (.error (.valueError "Size should be a positive number"), s)
  else
    let should_purge := (s.entries.length : Int) > newSize
    let s1 := lru_evict_loop newSize s.entries.length s
    let s2 := { s1 with size := newSize }
    (.ok (), if should_purge then lru_purge_staging s2 else s2)

/-- Model of `LRU_update` (src/lru.c lines 552-584), positional-dict
branch: iterate `lru_ass_sub` over the pairs of the argument dict under
one lock acquisition, then purge once.  `pairs` is the iteration order of
`PyDict_Next`. -/
def LRU_update {K V : Type} [DecidableEq K] (s : LRU K V) (pairs : List (K × V)) :
    LRU K V :=
  lru_purge_staging (pairs.foldl (fun t kv => (lru_ass_sub t kv.1 (some kv.2)).2) s)

/-- Model of `LRU_init` (src/lru.c lines 948-983): remember the callback,
then reject a non-positive size with
`ValueError("Size should be a positive number")` (no usable instance is
produced); otherwise start with an empty dict, no nodes, zero counters
and an empty staging list. -/
def LRU_init (K V : Type) (size : Int) (callback : Bool) :
    Except (PyErr K) (LRU K V) :=
  if size ≤ 0 then .error (.valueError "Size should be a positive number")
  else .ok { entries := [], size := size, hits := 0, misses := 0,
             callback := callback, staging := [], calls := [] }

/-- One completed public operation of the kinds named by the claims:
`put` is index assignment (`LRU_ass_sub_lock_purge` with a value), `get`
is `LRU_subscript_lock`, `del` is index deletion
(`LRU_ass_sub_lock_purge` with NULL), plus `setdefault`, `update` and
`resize` (`LRU_set_size`). -/
inductive Op (K V : Type) where
  | put (k : K) (v : V)
  | get (k : K)
  | del (k : K)
  | setdefault (k : K) (d : V)
  | update (pairs : List (K × V))
  | resize (n : Int)

/-- The state after one completed public operation. -/
def applyOp {K V : Type} [DecidableEq K] (s : LRU K V) : Op K V → LRU K V
  | .put k v => (LRU_ass_sub_lock_purge s k (some v)).2
  | .get k => (LRU_subscript_lock s k).2
  | .del k => (LRU_ass_sub_lock_purge s k none).2
  | .setdefault k d => (LRU_setdefault s k d).2
  | .update ps => LRU_update s ps
  | .resize n => (LRU_set_size s n).2

/-- The size invariant of the spec: positive capacity and no more stored
entries than the capacity. -/
def sizeInv {K V : Type} (s : LRU K V) : Prop :=
  1 ≤ s.size ∧ (s.entries.length : Int) ≤ s.size

instance {K V : Type} (s : LRU K V) : Decidable (sizeInv s) :=
  inferInstanceAs (Decidable (_ ∧ _))

/-- A fresh cache of the given capacity with a configured callback
(keys and values `Nat`), used for the concrete scenarios. -/
def cacheCB (cap : Int) : LRU Nat Nat :=
  { entries := [], size := cap, hits := 0, misses := 0,
    callback := true, staging := [], calls := [] }

/-- A 3-entry cache at capacity 3 with a configured callback, recency
order (1, 21) most recent to (3, 23) least recent. -/
def resizeSample : LRU Nat Nat :=
  { entries := [(1, 21), (2, 22), (3, 23)], size := 3, hits := 0, misses := 0,
    callback := true, staging := [], calls := [] }

/-- An empty cache of capacity 2 with no callback. -/
def emptyCache : LRU Nat Nat :=
  { entries := [], size := 2, hits := 0, misses := 0,
    callback := false, staging := [], calls := [] }

/-- A 1-entry cache used by witnesses. -/
def oneCache : LRU Nat Nat :=
  { entries := [(5, 7)], size := 4, hits := 2, misses := 3,
    callback := true, staging := [], calls := [] }

namespace UnderLru

/-- State of the `LRU` object of `src/src/lru/_lru.c` (lines 122-131):
same fields as the other variant but neither lock nor staging list;
`calls` is again the trace of callback invocations. -/
structure LRU (K V : Type) where
  entries : List (K × V)
  size : Int
  hits : Nat
  misses : Nat
  callback : Bool
  calls : List (K × V)
deriving DecidableEq

/-- Model of `lru_delete_last` (src/src/lru/_lru.c lines 191-212): when a
callback is configured the evicted pair is passed to it directly -
`PyObject_CallObject(self->callback, arglist)` runs inside the mutation,
between the list unlink and the dict deletion. -/
def lru_delete_last {K V : Type} [DecidableEq K] (s : LRU K V) : LRU K V :=
  match s.entries.getLast? with
  | none => s
  | some kv =>
    if s.callback then
      { s with entries := s.entries.dropLast, calls := s.calls ++ [kv] }
    else
      { s with entries := s.entries.dropLast }

end UnderLru

/-- A 1-entry cache of the `_lru.c` variant with a configured callback. -/
def directSample : UnderLru.LRU Nat Nat :=
  { entries := [(7, 70)], size := 1, hits := 0, misses := 0,
    callback := true, calls := [] }

/-! ### Basic facts about the dict model -/

theorem dictDel_length {K V : Type} [DecidableEq K] (k : K) (v : V) :
    ∀ l : List (K × V), dictGet k l = some v → (dictDel k l).length + 1 = l.length := by
  intro l
  induction l with
  | nil => intro h; simp [dictGet] at h
  | cons p rest ih =>
    obtain ⟨k1, w⟩ := p
    intro h
    by_cases hk : k1 = k
    · simp [dictDel, hk]
    · simp only [dictGet, if_neg hk] at h
      simp only [dictDel, if_neg hk, List.length_cons]
      have := ih h
      omega

theorem dictGet_eq_none_of_not_mem {K V : Type} [DecidableEq K] (k : K) :
    ∀ l : List (K × V), k ∉ l.map Prod.fst → dictGet k l = none := by
  intro l
  induction l with
  | nil => intro _; rfl
  | cons p rest ih =>
    obtain ⟨k1, w⟩ := p
    intro h
    simp only [List.map_cons, List.mem_cons] at h
    push_neg at h
    have hk : k1 ≠ k := fun he => h.1 he.symm
    simp only [dictGet, if_neg hk]
    exact ih (h.2)

theorem dictGet_dictDel_self {K V : Type} [DecidableEq K] (k : K) :
    ∀ l : List (K × V), (l.map Prod.fst).Nodup → dictGet k (dictDel k l) = none := by
  intro l
  induction l with
  | nil => intro _; rfl
  | cons p rest ih =>
    obtain ⟨k1, w⟩ := p
    intro hnd
    simp only [List.map_cons, List.nodup_cons] at hnd
    by_cases hk : k1 = k
    · subst hk
      simp only [dictDel, if_pos rfl]
      exact dictGet_eq_none_of_not_mem k1 rest hnd.1
    · simp only [dictDel, if_neg hk, dictGet, if_neg hk]
      exact ih hnd.2

/-! ### Field behaviour of the internal primitives -/

theorem lru_delete_last_eq {K V : Type} [DecidableEq K] (s : LRU K V) :
    lru_delete_last s =
      { s with entries := s.entries.dropLast,
               staging := if s.callback then s.staging ++ s.entries.getLast?.toList
                          else s.staging } := by
  obtain ⟨l, sz, hh, mm, cb, st, cl⟩ := s
  unfold lru_delete_last
  cases hl : l.getLast? with
  | none =>
    have he : l = [] := List.getLast?_eq_none_iff.mp hl
    subst he
    simp
  | some kv => simp [Option.toList]

theorem lru_purge_staging_eq {K V : Type} [DecidableEq K] (s : LRU K V) :
    lru_purge_staging s =
      { s with staging := [],
               calls := if s.callback then s.calls ++ s.staging.reverse else s.calls } := by
  unfold lru_purge_staging
  split <;> simp_all

theorem sizeInv_purge {K V : Type} [DecidableEq K] (s : LRU K V) (h : sizeInv s) :
    sizeInv (lru_purge_staging s) := by
  rw [lru_purge_staging_eq]
  exact h

theorem lru_subscript_snd {K V : Type} [DecidableEq K] (s : LRU K V) (k : K) :
    ((lru_subscript s k).2).size = s.size
    ∧ ((lru_subscript s k).2).staging = s.staging
    ∧ ((lru_subscript s k).2).calls = s.calls
    ∧ ((lru_subscript s k).2).callback = s.callback
    ∧ ((lru_subscript s k).2).entries.length = s.entries.length := by
  unfold lru_subscript
  cases h : dictGet k s.entries with
  | none => exact ⟨rfl, rfl, rfl, rfl, rfl⟩
  | some v =>
    by_cases hh : s.entries.head?.map Prod.fst = some k
    · simp [if_pos hh]
    · have hd := dictDel_length k v s.entries h
      simp only [if_neg hh]
      refine ⟨trivial, trivial, trivial, trivial, ?_⟩
      simp only [List.length_cons]
      omega

theorem sizeInv_lru_subscript {K V : Type} [DecidableEq K] (s : LRU K V) (k : K)
    (h : sizeInv s) : sizeInv ((lru_subscript s k).2) := by
  obtain ⟨h1, h2⟩ := h
  have hs := lru_subscript_snd s k
  constructor
  · rw [hs.1]; exact h1
  · rw [hs.2.2.2.2, hs.1]; exact h2

theorem lru_ass_sub_snd {K V : Type} [DecidableEq K] (s : LRU K V) (k : K) (v : Option V) :
    ((lru_ass_sub s k v).2).size = s.size
    ∧ ((lru_ass_sub s k v).2).calls = s.calls
    ∧ ((lru_ass_sub s k v).2).callback = s.callback := by
  cases v with
  | none =>
    cases h : dictGet k s.entries with
    | none => simp [lru_ass_sub, h]
    | some w => simp [lru_ass_sub, h]
  | some v =>
    cases h : dictGet k s.entries with
    | some w => simp [lru_ass_sub, h]
    | none =>
      simp only [lru_ass_sub, h]
      split
      · rw [lru_delete_last_eq]
        exact ⟨rfl, rfl, rfl⟩
      · exact ⟨rfl, rfl, rfl⟩

theorem sizeInv_lru_ass_sub {K V : Type} [DecidableEq K] (s : LRU K V) (k : K)
    (v : Option V) (h : sizeInv s) : sizeInv ((lru_ass_sub s k v).2) := by
  obtain ⟨h1, h2⟩ := h
  refine ⟨((lru_ass_sub_snd s k v).1) ▸ h1, ?_⟩
  rw [(lru_ass_sub_snd s k v).1]
  cases v with
  | none =>
    cases hg : dictGet k s.entries with
    | none => simp only [lru_ass_sub, hg]; exact h2
    | some w =>
      simp only [lru_ass_sub, hg]
      have := dictDel_length k w s.entries hg
      have hc : ((dictDel k s.entries).length : Int) ≤ (s.entries.length : Int) := by omega
      exact le_trans hc h2
  | some v =>
    cases hg : dictGet k s.entries with
    | some w =>
      simp only [lru_ass_sub, hg, List.length_cons]
      have := dictDel_length k w s.entries hg
      have : (((dictDel k s.entries).length : Int) + 1) = (s.entries.length : Int) := by omega
      omega
    | none =>
      simp only [lru_ass_sub, hg]
      by_cases hgt : (s.entries.length : Int) + 1 > s.size
      · rw [if_pos hgt]
        rw [lru_delete_last_eq]
        simp only [List.length_cons, List.length_dropLast]
        have hlen : 1 ≤ s.entries.length := by omega
        omega
      · rw [if_neg hgt]
        simp only [List.length_cons]
        omega

/-! ### The eviction loop of LRU_set_size -/

theorem lru_evict_loop_fields {K V : Type} [DecidableEq K] (n : Int) :
    ∀ (fuel : Nat) (s : LRU K V),
      (lru_evict_loop n fuel s).calls = s.calls
      ∧ (lru_evict_loop n fuel s).callback = s.callback
      ∧ (lru_evict_loop n fuel s).size = s.size := by
  intro fuel
  induction fuel with
  | zero => intro s; exact ⟨rfl, rfl, rfl⟩
  | succ m ih =>
    intro s
    unfold lru_evict_loop
    by_cases hc : (s.entries.length : Int) > n
    · rw [if_pos hc, lru_delete_last_eq]
      exact ih _
    · rw [if_neg hc]
      exact ⟨rfl, rfl, rfl⟩

theorem lru_evict_loop_length {K V : Type} [DecidableEq K] (n : Int) (hn : 0 ≤ n) :
    ∀ (fuel : Nat) (s : LRU K V), (s.entries.length : Int) ≤ n + fuel →
      ((lru_evict_loop n fuel s).entries.length : Int) ≤ n := by
  intro fuel
  induction fuel with
  | zero =>
    intro s h
    simp only [lru_evict_loop]
    omega
  | succ m ih =>
    intro s h
    unfold lru_evict_loop
    by_cases hc : (s.entries.length : Int) > n
    · rw [if_pos hc]
      apply ih
      rw [lru_delete_last_eq]
      simp only [List.length_dropLast]
      have : 1 ≤ s.entries.length := by omega
      omega
    · rw [if_neg hc]
      omega

theorem lru_evict_loop_entries {K V : Type} [DecidableEq K] (n : Int) (hn : 0 ≤ n) :
    ∀ (fuel : Nat) (s : LRU K V), (s.entries.length : Int) ≤ n + fuel →
      (lru_evict_loop n fuel s).entries = s.entries.take n.toNat := by
  intro fuel
  induction fuel with
  | zero =>
    intro s h
    simp only [lru_evict_loop]
    have : s.entries.length ≤ n.toNat := by omega
    exact (List.take_of_length_le this).symm
  | succ m ih =>
    intro s h
    unfold lru_evict_loop
    by_cases hc : (s.entries.length : Int) > n
    · rw [if_pos hc]
      have hlen1 : 1 ≤ s.entries.length := by omega
      have h1 : ((lru_delete_last s).entries.length : Int) ≤ n + m := by
        rw [lru_delete_last_eq]
        simp only [List.length_dropLast]
        omega
      rw [ih (lru_delete_last s) h1, lru_delete_last_eq]
      show s.entries.dropLast.take n.toNat = s.entries.take n.toNat
      rw [List.dropLast_eq_take, List.take_take]
      congr 1
      omega
    · rw [if_neg hc]
      have : s.entries.length ≤ n.toNat := by omega
      exact (List.take_of_length_le this).symm

theorem lru_evict_loop_staging {K V : Type} [DecidableEq K] (n : Int) (hn : 0 ≤ n) :
    ∀ (fuel : Nat) (s : LRU K V), s.callback = true →
      (s.entries.length : Int) ≤ n + fuel →
      (lru_evict_loop n fuel s).staging
        = s.staging ++ (s.entries.drop n.toNat).reverse := by
  intro fuel
  induction fuel with
  | zero =>
    intro s hcb h
    simp only [lru_evict_loop]
    have hd : s.entries.drop n.toNat = [] := List.drop_eq_nil_of_le (by omega)
    simp [hd]
  | succ m ih =>
    intro s hcb h
    unfold lru_evict_loop
    by_cases hc : (s.entries.length : Int) > n
    · rw [if_pos hc]
      have hne : s.entries ≠ [] := by
        intro he
        rw [he] at hc
        simp at hc
        omega
      have hlen1 : 1 ≤ s.entries.length := by omega
      have hcb1 : (lru_delete_last s).callback = true := by
        rw [lru_delete_last_eq]; exact hcb
      have hl1 : ((lru_delete_last s).entries.length : Int) ≤ n + m := by
        rw [lru_delete_last_eq]
        simp only [List.length_dropLast]
        omega
      rw [ih (lru_delete_last s) hcb1 hl1, lru_delete_last_eq]
      have hgl : s.entries.getLast? = some (s.entries.getLast hne) :=
        List.getLast?_eq_getLast s.entries hne
      have hkey : s.entries.drop n.toNat
          = s.entries.dropLast.drop n.toNat ++ [s.entries.getLast hne] := by
        conv_lhs => rw [← List.dropLast_append_getLast hne]
        rw [List.drop_append_of_le_length]
        simp only [List.length_dropLast]
        omega
      show (if s.callback then s.staging ++ s.entries.getLast?.toList else s.staging)
          ++ (s.entries.dropLast.drop n.toNat).reverse
        = s.staging ++ (s.entries.drop n.toNat).reverse
      rw [hgl, hkey]
      simp [hcb, List.reverse_append]
    · rw [if_neg hc]
      have hd : s.entries.drop n.toNat = [] := List.drop_eq_nil_of_le (by omega)
      simp [hd]

/-! ### The public operations preserve the size invariant -/

theorem LRU_subscript_lock_snd {K V : Type} [DecidableEq K] (s : LRU K V) (k : K) :
    (LRU_subscript_lock s k).2 = (lru_subscript s k).2 := by
  unfold LRU_subscript_lock
  rcases hs : lru_subscript s k with ⟨o, s2⟩
  cases o <;> rfl

theorem sizeInv_foldl_ass_sub {K V : Type} [DecidableEq K] (ps : List (K × V)) :
    ∀ s : LRU K V, sizeInv s →
      sizeInv (ps.foldl (fun t kv => (lru_ass_sub t kv.1 (some kv.2)).2) s) := by
  induction ps with
  | nil => intro s h; exact h
  | cons p rest ih =>
    intro s h
    exact ih _ (sizeInv_lru_ass_sub s p.1 _ h)

theorem sizeInv_applyOp {K V : Type} [DecidableEq K] (s : LRU K V) (op : Op K V)
    (h : sizeInv s) : sizeInv (applyOp s op) := by
  cases op with
  | put k v =>
    show sizeInv (lru_purge_staging (lru_ass_sub s k (some v)).2)
    exact sizeInv_purge _ (sizeInv_lru_ass_sub s k _ h)
  | get k =>
    show sizeInv (LRU_subscript_lock s k).2
    rw [LRU_subscript_lock_snd]
    exact sizeInv_lru_subscript s k h
  | del k =>
    show sizeInv (lru_purge_staging (lru_ass_sub s k none).2)
    exact sizeInv_purge _ (sizeInv_lru_ass_sub s k _ h)
  | setdefault k d =>
    show sizeInv (LRU_setdefault s k d).2
    unfold LRU_setdefault
    rcases hs : lru_subscript s k with ⟨o, s2⟩
    have h2 : sizeInv s2 := by
      have h3 := sizeInv_lru_subscript s k h
      rw [hs] at h3
      exact h3
    cases o with
    | some v => exact h2
    | none =>
      show sizeInv (lru_purge_staging (lru_ass_sub s2 k (some d)).2)
      exact sizeInv_purge _ (sizeInv_lru_ass_sub s2 k _ h2)
  | update ps =>
    show sizeInv (LRU_update s ps)
    unfold LRU_update
    exact sizeInv_purge _ (sizeInv_foldl_ass_sub ps s h)
  | resize n =>
    show sizeInv (LRU_set_size s n).2
    unfold LRU_set_size
    by_cases hn : n ≤ 0
    · rw [if_pos hn]
      exact h
    · rw [if_neg hn]
      have hn0 : (0 : Int) ≤ n := by omega
      have hlen : ((lru_evict_loop n s.entries.length s).entries.length : Int) ≤ n :=
        lru_evict_loop_length n hn0 s.entries.length s (by omega)
      have h1 : (1 : Int) ≤ n := by omega
      show sizeInv (if (s.entries.length : Int) > n
          then lru_purge_staging { lru_evict_loop n s.entries.length s with size := n }
          else { lru_evict_loop n s.entries.length s with size := n })
      by_cases hp : (s.entries.length : Int) > n
      · rw [if_pos hp]
        exact sizeInv_purge _ ⟨h1, hlen⟩
      · rw [if_neg hp]
        exact ⟨h1, hlen⟩

/-! ### Additional facts used by the claim theorems -/

theorem lru_purge_staging_entries {K V : Type} [DecidableEq K] (t : LRU K V) :
    (lru_purge_staging t).entries = t.entries := by
  rw [lru_purge_staging_eq]

theorem lru_purge_staging_size {K V : Type} [DecidableEq K] (t : LRU K V) :
    (lru_purge_staging t).size = t.size := by
  rw [lru_purge_staging_eq]

theorem LRU_set_size_pos {K V : Type} [DecidableEq K] (s : LRU K V) (n : Int)
    (hn : 0 < n) :
    LRU_set_size s n =
      (Except.ok (),
       if (s.entries.length : Int) > n
       then lru_purge_staging { lru_evict_loop n s.entries.length s with size := n }
       else { lru_evict_loop n s.entries.length s with size := n }) := by
  unfold LRU_set_size
  rw [if_neg (by omega : ¬ n ≤ 0)]

theorem lru_subscript_hit {K V : Type} [DecidableEq K] (s : LRU K V) (k : K) (v : V)
    (hv : dictGet k s.entries = some v) :
    (lru_subscript s k).1 = some v
    ∧ ((lru_subscript s k).2).entries.head? = some (k, v)
    ∧ ((lru_subscript s k).2).hits = s.hits + 1 := by
  simp only [lru_subscript, hv]
  by_cases hh : s.entries.head?.map Prod.fst = some k
  · rw [if_pos hh]
    refine ⟨rfl, ?_, rfl⟩
    show s.entries.head? = some (k, v)
    cases he : s.entries with
    | nil => rw [he] at hh; simp at hh
    | cons a rest =>
      obtain ⟨k1, w⟩ := a
      rw [he] at hh hv
      simp at hh
      subst hh
      simp [dictGet] at hv
      simp [hv]
  · rw [if_neg hh]
    exact ⟨rfl, rfl, rfl⟩

/-! ### The claims -/

/-- Claim C1: for every sequence of completed put, get, delete, setdefault,
update and resize operations starting from a state satisfying the size
invariant, the number of stored entries after each operation completes is
at most the current capacity; moreover inserting a new key into a full
cache evicts exactly the tail entry before the operation returns, and a
resize to a positive capacity shrinks the cache until its length is at
most the new capacity. -/
theorem c1_size_never_exceeds_capacity {K V : Type} [DecidableEq K]
    (s : LRU K V) (ops : List (Op K V)) (k : K) (v : V) (n : Int)
    (h : sizeInv s) :
    sizeInv (ops.foldl applyOp s)
    ∧ (dictGet k s.entries = none → (s.entries.length : Int) = s.size →
        ((LRU_ass_sub_lock_purge s k (some v)).2).entries
          = (k, v) :: s.entries.dropLast)
    ∧ (0 < n → (((LRU_set_size s n).2).entries.length : Int) ≤ n) := by
  obtain ⟨hs1, hs2⟩ := h
  refine ⟨?_, ?_, ?_⟩
  · induction ops generalizing s with
    | nil => exact ⟨hs1, hs2⟩
    | cons op rest ih =>
      have h2 := sizeInv_applyOp s op ⟨hs1, hs2⟩
      exact ih (applyOp s op) h2.1 h2.2
  · intro hg hf
    show (lru_purge_staging (lru_ass_sub s k (some v)).2).entries = _
    rw [lru_purge_staging_entries]
    simp only [lru_ass_sub, hg]
    have hgt : (s.entries.length : Int) + 1 > s.size := by omega
    rw [if_pos hgt, lru_delete_last_eq]
  · intro hn
    rw [LRU_set_size_pos s n hn]
    have hn0 : (0 : Int) ≤ n := by omega
    have hlen := lru_evict_loop_length n hn0 s.entries.length s (by omega)
    by_cases hp : (s.entries.length : Int) > n
    · rw [if_pos hp]
      show (((lru_purge_staging
          { lru_evict_loop n s.entries.length s with size := n }).entries.length : Int)) ≤ n
      rw [lru_purge_staging_entries]
      exact hlen
    · rw [if_neg hp]
      exact hlen

/-- Witness for C1: a concrete operation sequence on a capacity-2 cache. -/
theorem c1_size_never_exceeds_capacity_witness :
    sizeInv (([Op.put 1 10, Op.put 2 20, Op.put 3 30, Op.get 1,
               Op.del 2, Op.setdefault 9 90, Op.update [(4, 40), (5, 50)],
               Op.resize 1] : List (Op Nat Nat)).foldl applyOp (cacheCB 2)) :=
  (c1_size_never_exceeds_capacity (cacheCB 2) _ 0 0 1 (by decide)).1

/-- Claim C2: a put of a new key on a full cache evicts exactly one entry:
the result list is the new pair at the head followed by every prior entry
except the tail, and the staged (evicted) pair is exactly the prior tail,
the least recently touched entry; concretely, with capacity 3, inserting
keys 1, 2, 3, 4 in order with no intervening gets evicts key 1 and leaves
the MRU-to-LRU order 4, 3, 2. -/
theorem c2_full_put_evicts_exactly_tail {K V : Type} [DecidableEq K]
    (s : LRU K V) (k : K) (v : V) (p : K × V)
    (hfull : (s.entries.length : Int) = s.size)
    (habs : dictGet k s.entries = none)
    (hcb : s.callback = true)
    (hstg : s.staging = [])
    (hlast : s.entries.getLast? = some p) :
    ((lru_ass_sub s k (some v)).1 = 0
      ∧ ((lru_ass_sub s k (some v)).2).entries = (k, v) :: s.entries.dropLast
      ∧ ((lru_ass_sub s k (some v)).2).staging = [p])
    ∧ ((([Op.put 1 10, Op.put 2 20, Op.put 3 30, Op.put 4 40] :
          List (Op Nat Nat)).foldl applyOp (cacheCB 3)).entries
          = [(4, 40), (3, 30), (2, 20)]
        ∧ (([Op.put 1 10, Op.put 2 20, Op.put 3 30, Op.put 4 40] :
          List (Op Nat Nat)).foldl applyOp (cacheCB 3)).calls = [(1, 10)]) := by
  constructor
  · have hgt : (s.entries.length : Int) + 1 > s.size := by omega
    refine ⟨?_, ?_, ?_⟩
    · simp [lru_ass_sub, habs]
    · simp only [lru_ass_sub, habs]
      rw [if_pos hgt, lru_delete_last_eq]
    · simp only [lru_ass_sub, habs]
      rw [if_pos hgt, lru_delete_last_eq]
      show (if s.callback then s.staging ++ s.entries.getLast?.toList else s.staging) = [p]
      simp [hcb, hstg, hlast]
  · exact ⟨by decide, by decide⟩

/-- Witness for C2: inserting key 9 into the full 3-entry cache evicts
its tail. -/
theorem c2_full_put_evicts_exactly_tail_witness :
    ((lru_ass_sub resizeSample 9 (some 99)).2).entries
      = (9, 99) :: resizeSample.entries.dropLast
    ∧ ((lru_ass_sub resizeSample 9 (some 99)).2).staging = [(3, 23)] := by
  have h := (c2_full_put_evicts_exactly_tail resizeSample 9 99 (3, 23)
    (by decide) (by decide) (by decide) (by decide) (by decide)).1
  exact ⟨h.2.1, h.2.2⟩

/-- Claim C3: a hit on get promotes the entry of the requested key to the
head of the recency list and increments hits; consequently, with capacity
2, after put 1, put 2, get 1, put 3 the evicted key is 2 (never the freshly
touched key 1) and the MRU-to-LRU order is 3, 1. -/
theorem c3_get_promotes_and_protects {K V : Type} [DecidableEq K]
    (s : LRU K V) (k : K) (v : V) (hv : dictGet k s.entries = some v) :
    ((lru_subscript s k).1 = some v
      ∧ ((lru_subscript s k).2).entries.head? = some (k, v)
      ∧ ((lru_subscript s k).2).hits = s.hits + 1)
    ∧ ((([Op.put 1 10, Op.put 2 20, Op.get 1, Op.put 3 30] :
          List (Op Nat Nat)).foldl applyOp (cacheCB 2)).entries
          = [(3, 30), (1, 10)]
        ∧ (([Op.put 1 10, Op.put 2 20, Op.get 1, Op.put 3 30] :
          List (Op Nat Nat)).foldl applyOp (cacheCB 2)).calls = [(2, 20)]) := by
  exact ⟨lru_subscript_hit s k v hv, by decide, by decide⟩

/-- Witness for C3: a hit on the only key of a 1-entry cache. -/
theorem c3_get_promotes_and_protects_witness :
    ((lru_subscript oneCache 5).2).entries.head? = some (5, 7)
    ∧ ((lru_subscript oneCache 5).2).hits = oneCache.hits + 1 := by
  have h := (c3_get_promotes_and_protects oneCache 5 7 (by decide)).1
  exact ⟨h.2.1, h.2.2⟩

/-- Claim C4 counterexample: resizing the full 3-entry cache
`resizeSample` to capacity 1 stages the evicted pairs in enqueue order
(3, 23) then (2, 22) (least-recent evicted first), but the drain invokes
the callback in the order (2, 22), (3, 23): the callback order is the
reverse of the enqueue order, not FIFO, and not LRU-to-MRU. -/
theorem c4_drain_not_fifo_counterexample :
    (lru_evict_loop 1 resizeSample.entries.length resizeSample).staging
      = [(3, 23), (2, 22)]
    ∧ ((LRU_set_size resizeSample 1).2).calls = [(2, 22), (3, 23)]
    ∧ ([(2, 22), (3, 23)] : List (Nat × Nat)) ≠ [(3, 23), (2, 22)] :=
  ⟨by decide, by decide, by decide⟩

/-- Claim C4 (amended): the drain step invokes the configured callback
once per staged pair in REVERSE enqueue order - the purge loop consumes
the staging list from its tail - so a resize that stages several evicted
pairs fires the callback in MRU-to-LRU order among the evicted entries
(the drop of the recency list), the reverse of the eviction order. -/
theorem c4_drain_reverse_enqueue_order {K V : Type} [DecidableEq K]
    (s : LRU K V) (n : Int) (hcb : s.callback = true) (hstg : s.staging = [])
    (hn : 0 < n) (hlt : n < (s.entries.length : Int)) :
    ((LRU_set_size s n).2).calls = s.calls ++ s.entries.drop n.toNat
    ∧ ((LRU_set_size s n).2).staging = []
    ∧ (∀ t : LRU K V, t.callback = true →
        (lru_purge_staging t).calls = t.calls ++ t.staging.reverse) := by
  have hn0 : (0 : Int) ≤ n := le_of_lt hn
  have hfl := lru_evict_loop_fields n s.entries.length s
  have hstag := lru_evict_loop_staging n hn0 s.entries.length s hcb (by omega)
  rw [hstg, List.nil_append] at hstag
  rw [LRU_set_size_pos s n hn, if_pos (by omega : (s.entries.length : Int) > n)]
  refine ⟨?_, ?_, ?_⟩
  · show (lru_purge_staging
        { lru_evict_loop n s.entries.length s with size := n }).calls
      = s.calls ++ s.entries.drop n.toNat
    rw [lru_purge_staging_eq]
    show (if (lru_evict_loop n s.entries.length s).callback
        then (lru_evict_loop n s.entries.length s).calls
          ++ (lru_evict_loop n s.entries.length s).staging.reverse
        else (lru_evict_loop n s.entries.length s).calls)
      = s.calls ++ s.entries.drop n.toNat
    rw [hfl.2.1, hcb, hfl.1, hstag]
    simp
  · show (lru_purge_staging
        { lru_evict_loop n s.entries.length s with size := n }).staging = []
    rw [lru_purge_staging_eq]
  · intro t ht
    rw [lru_purge_staging_eq]
    show (if t.callback then t.calls ++ t.staging.reverse else t.calls)
      = t.calls ++ t.staging.reverse
    rw [ht]
    simp

/-- Witness for C4 (amended) at the concrete resize of the counterexample. -/
theorem c4_drain_reverse_enqueue_order_witness :
    ((LRU_set_size resizeSample 1).2).calls
      = resizeSample.calls ++ resizeSample.entries.drop (1 : Int).toNat :=
  (c4_drain_reverse_enqueue_order resizeSample 1 (by decide) (by decide)
    (by decide) (by decide)).1

/-- Claim C5 counterexample: in the variant src/src/lru/_lru.c the
eviction primitive itself invokes the callback during the mutation: on a
1-entry cache with a configured callback, lru_delete_last extends the
call trace from [] to [(7, 70)]. -/
theorem c5_primitive_invokes_callback_counterexample :
    (UnderLru.lru_delete_last directSample).calls = [(7, 70)]
    ∧ directSample.calls = []
    ∧ ([(7, 70)] : List (Nat × Nat)) ≠ [] :=
  ⟨by decide, by decide, by decide⟩

/-- Claim C5 (amended): in the staged variant (src/lru.c) the eviction
primitive lru_delete_last never invokes the callback - the call trace is
untouched - and the whole locked mutation lru_ass_sub never invokes it
either (only lru_purge_staging, run after the lock is released, does);
but in the variant src/src/lru/_lru.c, lru_delete_last with a configured
callback invokes it directly during the mutation, once per evicted tail
pair. -/
theorem c5_callback_only_in_purge {K V : Type} [DecidableEq K]
    (s : LRU K V) (k : K) (v : Option V) :
    (lru_delete_last s).calls = s.calls
    ∧ ((lru_ass_sub s k v).2).calls = s.calls
    ∧ (∀ t : UnderLru.LRU K V, t.callback = true →
        (UnderLru.lru_delete_last t).calls = t.calls ++ t.entries.getLast?.toList) := by
  refine ⟨?_, (lru_ass_sub_snd s k v).2.1, ?_⟩
  · rw [lru_delete_last_eq]
  · intro t ht
    unfold UnderLru.lru_delete_last
    cases hl : t.entries.getLast? with
    | none => simp [Option.toList]
    | some kv => simp [Option.toList, ht]

/-- Witness for C5 (amended) at concrete caches of both variants. -/
theorem c5_callback_only_in_purge_witness :
    (lru_delete_last oneCache).calls = oneCache.calls
    ∧ (UnderLru.lru_delete_last directSample).calls
        = directSample.calls ++ directSample.entries.getLast?.toList :=
  ⟨(c5_callback_only_in_purge oneCache 0 none).1,
   (c5_callback_only_in_purge oneCache 0 none).2.2 directSample (by decide)⟩

/-- Claim C6: resize to a positive capacity succeeds and sets the
capacity field to the new capacity; when the new capacity is below the
current size it removes exactly size - newCapacity entries from the tail
(the survivors are the first newCapacity entries in MRU order) leaving
exactly newCapacity entries; a resize to a capacity at or above the
current size removes no entries. -/
theorem c6_resize_exact {K V : Type} [DecidableEq K] (s : LRU K V) (n : Int)
    (hn : 0 < n) :
    (LRU_set_size s n).1 = Except.ok ()
    ∧ ((LRU_set_size s n).2).size = n
    ∧ (n < (s.entries.length : Int) →
        ((LRU_set_size s n).2).entries = s.entries.take n.toNat
        ∧ (((LRU_set_size s n).2).entries.length : Int) = n)
    ∧ ((s.entries.length : Int) ≤ n → ((LRU_set_size s n).2).entries = s.entries) := by
  have hn0 : (0 : Int) ≤ n := le_of_lt hn
  have hent := lru_evict_loop_entries n hn0 s.entries.length s (by omega)
  rw [LRU_set_size_pos s n hn]
  refine ⟨rfl, ?_, ?_, ?_⟩
  · by_cases hp : (s.entries.length : Int) > n
    · rw [if_pos hp]
      show (lru_purge_staging
          { lru_evict_loop n s.entries.length s with size := n }).size = n
      rw [lru_purge_staging_size]
    · rw [if_neg hp]
  · intro hlt
    rw [if_pos (by omega : (s.entries.length : Int) > n)]
    have he : (lru_purge_staging
        { lru_evict_loop n s.entries.length s with size := n }).entries
        = s.entries.take n.toNat := by
      rw [lru_purge_staging_entries]
      exact hent
    refine ⟨he, ?_⟩
    rw [he, List.length_take]
    omega
  · intro hle
    rw [if_neg (by omega : ¬ (s.entries.length : Int) > n)]
    show (lru_evict_loop n s.entries.length s).entries = s.entries
    rw [hent]
    exact List.take_of_length_le (by omega)

/-- Witness for C6: resizing the 3-entry cache to capacity 1. -/
theorem c6_resize_exact_witness :
    ((LRU_set_size resizeSample 1).2).size = 1
    ∧ ((LRU_set_size resizeSample 1).2).entries
        = resizeSample.entries.take (1 : Int).toNat :=
  ⟨(c6_resize_exact resizeSample 1 (by decide)).2.1,
   ((c6_resize_exact resizeSample 1 (by decide)).2.2.1 (by decide)).1⟩

/-- Claim C7 counterexample: popitem on the empty cache and a subscript
lookup of an absent key both raise the SAME Python exception class,
KeyError - the empty-cache condition is not signalled by an error class
distinct from NotFound; the two are distinguishable only by their
payloads (a fixed message string versus the missing key). -/
theorem c7_same_error_class_counterexample :
    (LRU_popitem emptyCache true).1
      = Except.error (PyErr.keyErrorMsg "popitem(): LRU dict is empty")
    ∧ (LRU_subscript_lock emptyCache 0).1 = Except.error (PyErr.keyErrorKey 0)
    ∧ (PyErr.keyErrorMsg "popitem(): LRU dict is empty" : PyErr Nat).isKeyError = true
    ∧ (PyErr.keyErrorKey (0 : Nat)).isKeyError = true :=
  ⟨rfl, rfl, rfl, rfl⟩

/-- Claim C7 (amended): popitem on a cache with zero entries raises a
KeyError carrying the dedicated message "popitem(): LRU dict is empty" -
the same exception class as the KeyError raised by get/delete on an
absent key (which carries the key instead), so the two conditions are
distinguishable only by payload, not by class; on a non-empty cache,
popitem with least_recent false returns and removes the MRU (key, value)
pair, reducing the stored entries by exactly one. -/
theorem c7_popitem_amended {K V : Type} [DecidableEq K] (s : LRU K V) (b : Bool)
    (k : K) (v : V) (rest : List (K × V)) :
    (s.entries = [] →
      LRU_popitem s b
        = (Except.error (PyErr.keyErrorMsg "popitem(): LRU dict is empty"), s))
    ∧ (s.entries = (k, v) :: rest →
      (LRU_popitem s false).1 = Except.ok (k, v)
      ∧ ((LRU_popitem s false).2).entries = rest)
    ∧ (dictGet k s.entries = none →
      (LRU_subscript_lock s k).1 = Except.error (PyErr.keyErrorKey k)) := by
  refine ⟨?_, ?_, ?_⟩
  · intro he
    unfold LRU_popitem
    rw [he]
    cases b <;> rfl
  · intro he
    unfold LRU_popitem
    rw [he]
    constructor
    · rfl
    · show ((lru_ass_sub s k none).2).entries = rest
      have hg : dictGet k s.entries = some v := by
        rw [he]; simp [dictGet]
      simp only [lru_ass_sub, hg]
      show dictDel k s.entries = rest
      rw [he]
      simp [dictDel]
  · intro hg
    unfold LRU_subscript_lock
    simp only [lru_subscript, hg]

/-- Witness for C7 (amended): popitem on a 1-entry cache and on the
empty cache. -/
theorem c7_popitem_amended_witness :
    (LRU_popitem oneCache false).1 = Except.ok (5, 7)
    ∧ ((LRU_popitem oneCache false).2).entries = []
    ∧ LRU_popitem emptyCache true
        = (Except.error (PyErr.keyErrorMsg "popitem(): LRU dict is empty"),
           emptyCache) :=
  ⟨((c7_popitem_amended oneCache false 5 7 []).2.1 (by decide)).1,
   ((c7_popitem_amended oneCache false 5 7 []).2.1 (by decide)).2,
   (c7_popitem_amended emptyCache true 0 0 []).1 (by decide)⟩

/-- Claim C8: construction with a non-positive capacity fails with
ValueError("Size should be a positive number") and produces no usable
instance, and resize with a non-positive new capacity fails with the very
same error while returning the engine state unchanged. -/
theorem c8_nonpositive_capacity_rejected {K V : Type} [DecidableEq K]
    (n m : Int) (cb : Bool) (s : LRU K V) (hn : n ≤ 0) (hm : m ≤ 0) :
    LRU_init K V n cb
      = Except.error (PyErr.valueError "Size should be a positive number")
    ∧ LRU_set_size s m
      = (Except.error (PyErr.valueError "Size should be a positive number"), s) := by
  constructor
  · unfold LRU_init
    rw [if_pos hn]
  · unfold LRU_set_size
    rw [if_pos hm]

/-- Witness for C8 at capacity 0 and resize argument -3. -/
theorem c8_nonpositive_capacity_rejected_witness :
    LRU_init Nat Nat 0 true
      = Except.error (PyErr.valueError "Size should be a positive number")
    ∧ LRU_set_size oneCache (-3)
      = (Except.error (PyErr.valueError "Size should be a positive number"),
         oneCache) :=
  ⟨(c8_nonpositive_capacity_rejected 0 (-3) true oneCache (by decide) (by decide)).1,
   (c8_nonpositive_capacity_rejected 0 (-3) true oneCache (by decide) (by decide)).2⟩

/-- Claim C9: for a key present in the cache, explicit deletion - index
deletion and pop - removes the key's entry from the association list
(hence from both the key index and the recency list, which the list
models jointly), pop returns its stored value, and neither ever invokes
the eviction callback (the call trace is unchanged) even when a callback
is configured. -/
theorem c9_delete_no_callback {K V : Type} [DecidableEq K]
    (s : LRU K V) (k : K) (v : V)
    (hv : dictGet k s.entries = some v)
    (hnd : (s.entries.map Prod.fst).Nodup)
    (hstg : s.staging = []) :
    ((LRU_ass_sub_lock_purge s k none).1 = 0
      ∧ ((LRU_ass_sub_lock_purge s k none).2).entries = dictDel k s.entries
      ∧ dictGet k ((LRU_ass_sub_lock_purge s k none).2).entries = none
      ∧ ((LRU_ass_sub_lock_purge s k none).2).calls = s.calls
      ∧ ((LRU_ass_sub_lock_purge s k none).2).staging = [])
    ∧ ((LRU_pop s k none).1 = Except.ok v
      ∧ ((LRU_pop s k none).2).entries = dictDel k s.entries
      ∧ ((LRU_pop s k none).2).calls = s.calls
      ∧ ((LRU_pop s k none).2).staging = s.staging) := by
  have hd : lru_ass_sub s k none = (0, { s with entries := dictDel k s.entries }) := by
    simp [lru_ass_sub, hv]
  constructor
  · refine ⟨?_, ?_, ?_, ?_, ?_⟩
    · show (lru_ass_sub s k none).1 = 0
      rw [hd]
    · show (lru_purge_staging (lru_ass_sub s k none).2).entries = dictDel k s.entries
      rw [lru_purge_staging_entries, hd]
    · show dictGet k (lru_purge_staging (lru_ass_sub s k none).2).entries = none
      rw [lru_purge_staging_entries, hd]
      exact dictGet_dictDel_self k s.entries hnd
    · show (lru_purge_staging (lru_ass_sub s k none).2).calls = s.calls
      rw [lru_purge_staging_eq, hd]
      simp [hstg]
    · show (lru_purge_staging (lru_ass_sub s k none).2).staging = []
      rw [lru_purge_staging_eq]
  · by_cases hh : s.entries.head?.map Prod.fst = some k
    · have hsub : lru_subscript s k = (some v, { s with hits := s.hits + 1 }) := by
        simp only [lru_subscript, hv]
        rw [if_pos hh]
      have hp : LRU_pop s k none
          = (Except.ok v, (lru_ass_sub { s with hits := s.hits + 1 } k none).2) := by
        unfold LRU_pop
        rw [hsub]
      have hd2 : lru_ass_sub { s with hits := s.hits + 1 } k none
          = (0, { s with hits := s.hits + 1, entries := dictDel k s.entries }) := by
        simp [lru_ass_sub, hv]
      rw [hp, hd2]
      exact ⟨rfl, rfl, rfl, rfl⟩
    · have hsub : lru_subscript s k
          = (some v, { s with entries := (k, v) :: dictDel k s.entries,
                              hits := s.hits + 1 }) := by
        simp only [lru_subscript, hv]
        rw [if_neg hh]
      have hp : LRU_pop s k none
          = (Except.ok v, (lru_ass_sub (lru_subscript s k).2 k none).2) := by
        unfold LRU_pop
        rw [hsub]
      have hd2 : lru_ass_sub (lru_subscript s k).2 k none
          = (0, { s with hits := s.hits + 1, entries := dictDel k s.entries }) := by
        rw [hsub]
        simp [lru_ass_sub, dictGet, dictDel]
      rw [hp, hd2]
      exact ⟨rfl, rfl, rfl, rfl⟩

/-- Witness for C9: deleting key 2 of the 3-entry cache with a configured
callback. -/
theorem c9_delete_no_callback_witness :
    (LRU_pop resizeSample 2 none).1 = Except.ok 22
    ∧ ((LRU_ass_sub_lock_purge resizeSample 2 none).2).calls
        = resizeSample.calls :=
  ⟨(c9_delete_no_callback resizeSample 2 22 (by decide) (by decide) (by decide)).2.1,
   (c9_delete_no_callback resizeSample 2 22 (by decide) (by decide)
      (by decide)).1.2.2.2.1⟩

/-- Claim C10: peek_first_item and peek_last_item return the MRU and LRU
pair respectively (None on the empty cache, rather than an error - unlike
popitem, which raises KeyError there) and leave the state, including
recency order, size and the hit/miss counters, completely unchanged. -/
theorem c10_peek_no_mutation {K V : Type} [DecidableEq K] (s : LRU K V) :
    LRU_peek_first_item s = (s.entries.head?, s)
    ∧ LRU_peek_last_item s = (s.entries.getLast?, s)
    ∧ (s.entries = [] →
        LRU_peek_first_item s = (none, s)
        ∧ LRU_peek_last_item s = (none, s)
        ∧ (LRU_popitem s true).1
            = Except.error (PyErr.keyErrorMsg "popitem(): LRU dict is empty")) := by
  have h1 : LRU_peek_first_item s = (s.entries.head?, s) := by
    unfold LRU_peek_first_item
    cases s.entries.head? <;> rfl
  have h2 : LRU_peek_last_item s = (s.entries.getLast?, s) := by
    unfold LRU_peek_last_item
    cases s.entries.getLast? <;> rfl
  refine ⟨h1, h2, ?_⟩
  intro he
  refine ⟨?_, ?_, ?_⟩
  · rw [h1, he]
    rfl
  · rw [h2, he]
    rfl
  · unfold LRU_popitem
    rw [he]
    rfl

/-- Witness for C10: peeks on a 1-entry cache and popitem on the empty
cache. -/
theorem c10_peek_no_mutation_witness :
    LRU_peek_first_item oneCache = (some (5, 7), oneCache)
    ∧ LRU_peek_last_item oneCache = (some (5, 7), oneCache)
    ∧ (LRU_popitem emptyCache true).1
        = Except.error (PyErr.keyErrorMsg "popitem(): LRU dict is empty") :=
  ⟨(c10_peek_no_mutation oneCache).1, (c10_peek_no_mutation oneCache).2.1,
   ((c10_peek_no_mutation emptyCache).2.2 (by decide)).2.2⟩
